import Mathlib

/-
Shallow embedding of the FinancelyAI household finance tracker.

Conventions used throughout this development:
* JavaScript numbers holding integer cent amounts are modelled as `Int`
  (every value the app manipulates is an exact integer well inside the
  range where IEEE-754 doubles are exact).
* JavaScript strings are modelled as `String`, and the string operations
  the app uses (`toLowerCase`, `trim`, `includes`, `replace`, …) are
  re-implemented structurally on the underlying character list so that
  concrete instances reduce inside the kernel.
* `Date` values are modelled either by their epoch timestamp (an `Int`,
  for order comparisons) or by the `(getFullYear, getMonth, getDate)`
  triple the code actually reads; parsing an ISO string into either view
  is kept as an explicit function parameter, universally quantified in
  the theorems.
* Fallible external calls (the Gemini anomaly oracle) are modelled by an
  `Except` parameter carrying the outcome of the awaited call.
-/

namespace Financely

/-! Data model, from src/types.ts. -/

structure Member where
  id : String
  name : String
  avatarUrl : String
deriving DecidableEq, Repr

structure Category where
  id : String
  name : String
  icon : String
deriving DecidableEq, Repr

structure Rule where
  id : String
  keyword : String
  categoryId : String
deriving DecidableEq, Repr

structure Split where
  memberId : String
  amount : Int
deriving DecidableEq, Repr

structure Expense where
  id : String
  description : String
  amount : Int
  date : String
  memberId : String
  categoryId : String
  splits : List Split
deriving DecidableEq, Repr

structure Budget where
  id : String
  categoryId : String
  amount : Int
deriving DecidableEq, Repr

/-- The fields of `Household` consulted by the operations verified here
(members, categories, rules, expenses, budgets); the remaining fields of
src/types.ts (goals, trips, subscriptions, …) play no role in the claims. -/
structure Household where
  members : List Member
  categories : List Category
  rules : List Rule
  expenses : List Expense
  budgets : List Budget
deriving DecidableEq, Repr

/-! String primitives.  Each models the JavaScript operation named in its
comment, working on the character list of the string. -/

/-- JavaScript `String.prototype.toLowerCase()` (on the ASCII range the
application's rule keywords and descriptions use). -/
def jsToLower (s : String) : String :=
  ⟨s.data.map Char.toLower⟩

/-- JavaScript `haystack.includes(needle)`: substring containment. -/
def jsIncludes (haystack needle : String) : Bool :=
  decide (needle.data <:+: haystack.data)

/-- JavaScript `String.prototype.trim()`: strip leading and trailing
whitespace. -/
def jsTrim (s : String) : String :=
  ⟨((s.data.dropWhile Char.isWhitespace).reverse.dropWhile Char.isWhitespace).reverse⟩

/-! Category suggestion, from src/utils/expenseUtils.ts (`suggestCategory`).
The source lower-cases the description once, then scans the rules in list
order returning the first rule whose lower-cased keyword occurs in the
description; the `categories` parameter is accepted but never consulted. -/

def suggestCategoryScan (lowercasedDescription : String) : List Rule → Option String
  | [] => none
  | rule :: rest =>
    if jsIncludes lowercasedDescription (jsToLower rule.keyword) then some rule.categoryId
    else suggestCategoryScan lowercasedDescription rest

def suggestCategory (description : String) (rules : List Rule) (categories : List Category) :
    Option String :=
  suggestCategoryScan (jsToLower description) rules

/-! Add-expense modal, from src/components/AddExpenseModal.tsx. -/

/-- Source `handleSplitEqually`: with a positive total and a non-empty member
list, give every member `Math.floor(total / n)` cents and one extra cent
to each of the first `total % n` members, in member-list order.  The
source's early return (which leaves the previous splits untouched) is
modelled by the empty list, as the spec's `computeEqualSplit` does. -/
def handleSplitEqually (totalAmountCents : Int) (members : List Member) : List Split :=
  if totalAmountCents ≤ 0 ∨ members.length = 0 then []
  else
    let memberCount : Int := (members.length : Int)
    let baseAmount : Int := totalAmountCents / memberCount
    let remainder : Int := totalAmountCents % memberCount
    members.enum.map fun p =>
      { memberId := p.2.id, amount := baseAmount + if (p.1 : Int) < remainder then 1 else 0 }

/-- The draft expense handed to `onAddExpense` (an `Omit<Expense,'id'>`).
The source re-renders the date through `new Date(date).toISOString()`;
the date string is carried through unchanged here since no claim touches
it. -/
structure NewExpense where
  description : String
  amount : Int
  categoryId : String
  memberId : String
  date : String
  splits : List Split
deriving DecidableEq, Repr

/-- Source `handleSubmit`: reject (returning `none`, where the source alerts and
returns) when the trimmed description is empty, the total is not positive,
the category or payer id is empty, or the splits do not sum exactly to the
total (`Math.abs(remainingAmount) > 0`); otherwise submit the draft with
the splits filtered to those of positive amount. -/
def handleSubmit (description : String) (totalAmountCents : Int)
    (categoryId memberId date : String) (splits : List Split) : Option NewExpense :=
  let totalSplitAmount : Int := (splits.map Split.amount).sum
  let remainingAmount : Int := totalAmountCents - totalSplitAmount
  if jsTrim description = "" ∨ totalAmountCents ≤ 0 ∨ categoryId = "" ∨ memberId = "" ∨
      remainingAmount ≠ 0 then
    none
  else
    some { description := jsTrim description
           amount := totalAmountCents
           categoryId := categoryId
           memberId := memberId
           date := date
           splits := splits.filter fun s => decide (0 < s.amount) }

/-! Expense admission, from src/App.tsx (`handleAddExpense`). -/

inductive NotifSeverity where
  | info
  | warning
  | error
  | success
deriving DecidableEq, Repr

/-- The outcome of the awaited `detectAnomalousExpense` oracle call. -/
structure AnomalyResult where
  isAnomalous : Bool
  reasoning : String
deriving DecidableEq, Repr

/-- The notifications `handleAddExpense` can append, abstracted to the
data each message is built from (the rendered `message` string is
presentation; its severity and payload are what the claims speak about). -/
inductive AppNotification where
  | budgetExceeded (budgetAmount : Int) (categoryName : String)
  | approachingBudget (budgetAmount : Int) (categoryName : String)
  | anomalyAlert (reasoning : String)
deriving DecidableEq, Repr

def AppNotification.severity : AppNotification → NotifSeverity
  | .budgetExceeded _ _ => .error
  | .approachingBudget _ _ => .warning
  | .anomalyAlert _ => .warning

def AppNotification.isBudgetExceeded : AppNotification → Bool
  | .budgetExceeded _ _ => true
  | _ => false

def AppNotification.isApproachingBudget : AppNotification → Bool
  | .approachingBudget _ _ => true
  | _ => false

def AppNotification.isAnomalyAlert : AppNotification → Bool
  | .anomalyAlert _ => true
  | _ => false

/-- Source expression `household.categories.find(c => c.id === id)?.name || 'a category'`
(the `||` also replaces an empty name, the JavaScript falsy case). -/
def categoryNameOr (categories : List Category) (id : String) : String :=
  match categories.find? fun c => c.id == id with
  | some c => if c.name = "" then "a category" else c.name
  | none => "a category"

/-- Cents already spent this month in `categoryId`:
`household.expenses.filter(e => e.categoryId === cat && new Date(e.date) >= startOfMonth)`
summed over `amount`.  `parseDate` models `new Date(...)` as the epoch
timestamp used by the `>=` comparison. -/
def spentBeforeFor (expenses : List Expense) (categoryId : String)
    (parseDate : String → Int) (startOfMonth : Int) : Int :=
  ((expenses.filter fun e =>
      e.categoryId == categoryId && decide (startOfMonth ≤ parseDate e.date)).map
    Expense.amount).sum

/-- The budget-alert block of `handleAddExpense` (step 1).  The source
compares the integer totals against `budget.amount * 0.9`, an IEEE-754
double product; for cent amounts in the range doubles represent exactly,
`total < budget.amount * 0.9` coincides with the exact comparison
`10 * total < 9 * budget.amount`, which is how it is embedded here. -/
def budgetNotificationsFor (household : Household) (newExpense : NewExpense)
    (parseDate : String → Int) (startOfMonth : Int) : List AppNotification :=
  match household.budgets.find? fun b => b.categoryId == newExpense.categoryId with
  | none => []
  | some budget =>
    if 0 < budget.amount then
      let spentBefore := spentBeforeFor household.expenses newExpense.categoryId
        parseDate startOfMonth
      let spentAfter := spentBefore + newExpense.amount
      let categoryName := categoryNameOr household.categories newExpense.categoryId
      if spentBefore < budget.amount ∧ budget.amount ≤ spentAfter then
        [.budgetExceeded budget.amount categoryName]
      else if 10 * spentBefore < 9 * budget.amount ∧ 9 * budget.amount ≤ 10 * spentAfter ∧
          spentAfter < budget.amount then
        [.approachingBudget budget.amount categoryName]
      else []
    else []

/-- The anomaly-detection block of `handleAddExpense` (step 2): the
awaited oracle call either rejects (`Except.error`, caught and logged,
contributing nothing) or resolves; a resolved result flagged anomalous
contributes one warning carrying the oracle's reasoning text. -/
def anomalyNotificationsFor (anomalyOutcome : Except String AnomalyResult) :
    List AppNotification :=
  match anomalyOutcome with
  | .ok result => if result.isAnomalous then [.anomalyAlert result.reasoning] else []
  | .error _ => []

/-- Source `handleAddExpense` up to persistence: finalize the draft with the
fresh id, and compute the ordered notification list (budget notification
first, anomaly notification second). -/
def handleAddExpense (household : Household) (newExpense : NewExpense) (freshId : String)
    (parseDate : String → Int) (startOfMonth : Int)
    (anomalyOutcome : Except String AnomalyResult) : Expense × List AppNotification :=
  let expenseWithId : Expense :=
    { id := freshId
      description := newExpense.description
      amount := newExpense.amount
      date := newExpense.date
      memberId := newExpense.memberId
      categoryId := newExpense.categoryId
      splits := newExpense.splits }
  (expenseWithId,
   budgetNotificationsFor household newExpense parseDate startOfMonth ++
     anomalyNotificationsFor anomalyOutcome)

/-- The full admission path: `db.addExpense(expenseWithId, notificationsToAdd)`
appends the expense row and the notification rows.  Returns the new
expense list, the appended notifications, and the finalized expense. -/
def recordExpense (household : Household) (newExpense : NewExpense) (freshId : String)
    (parseDate : String → Int) (startOfMonth : Int)
    (anomalyOutcome : Except String AnomalyResult) :
    List Expense × List AppNotification × Expense :=
  let (expenseWithId, notificationsToAdd) :=
    handleAddExpense household newExpense freshId parseDate startOfMonth anomalyOutcome
  (household.expenses ++ [expenseWithId], notificationsToAdd, expenseWithId)

/-! Dashboard aggregates, from src/components/Dashboard.tsx.  The month
selection in the source (`new Date(exp.date).getMonth() === new Date().getMonth()`,
a month-number-only comparison) produces the `expensesThisMonth` list; the
claims quantify over that selected list, so the aggregates below take it
as input. -/

/-- The `memberSpending` JavaScript object, modelled as a partial map from
keys to values; `none` is an absent key (`undefined`). -/
def memberObjInit (members : List Member) : String → Option Int :=
  members.foldl (fun obj m => fun key => if key = m.id then some 0 else obj key)
    fun _ => none

/-- One iteration of the inner `forEach`: add the split amount at key
`split.memberId`, but only when that key is present
(`memberSpending[split.memberId] !== undefined`). -/
def applySplitToObj (obj : String → Option Int) (s : Split) : String → Option Int :=
  match obj s.memberId with
  | some v => fun key => if key = s.memberId then some (v + s.amount) else obj key
  | none => obj

def applyExpenseToObj (obj : String → Option Int) (e : Expense) : String → Option Int :=
  e.splits.foldl applySplitToObj obj

def memberSpendingObj (members : List Member) (expensesThisMonth : List Expense) :
    String → Option Int :=
  expensesThisMonth.foldl applyExpenseToObj (memberObjInit members)

/-- Insertion step of the final `.sort((a, b) => b.spent - a.spent)`:
descending by spent amount. -/
def insertBySpentDesc (x : Member × Int) : List (Member × Int) → List (Member × Int)
  | [] => [x]
  | y :: ys => if y.2 ≤ x.2 then x :: y :: ys else y :: insertBySpentDesc x ys

def sortBySpentDesc (l : List (Member × Int)) : List (Member × Int) :=
  l.foldr insertBySpentDesc []

/-- Source `spendingByMember`: one row per member carrying the accumulated split
amounts read back from the map, sorted descending by spent amount. -/
def spendingByMember (members : List Member) (expensesThisMonth : List Expense) :
    List (Member × Int) :=
  sortBySpentDesc (members.map fun m =>
    (m, (memberSpendingObj members expensesThisMonth m.id).getD 0))

/-- Source `totalSpentByMembers = spendingByMember.reduce((sum, m) => sum + m.spent, 0)`. -/
def totalSpentByMembers (members : List Member) (expensesThisMonth : List Expense) : Int :=
  (spendingByMember members expensesThisMonth).foldl (fun sum p => sum + p.2) 0

/-- Source `totalExpensesThisMonth = expensesThisMonth.reduce((sum, exp) => sum + exp.amount, 0)`. -/
def totalExpensesThisMonth (expensesThisMonth : List Expense) : Int :=
  expensesThisMonth.foldl (fun sum exp => sum + exp.amount) 0

/-- Per-category spend of the Budgets Overview card:
`expensesThisMonth.filter(e => e.categoryId === budget.categoryId).reduce((sum, e) => sum + e.amount, 0)`. -/
def categorySpentThisMonth (expensesThisMonth : List Expense) (categoryId : String) : Int :=
  ((expensesThisMonth.filter fun e => e.categoryId == categoryId).foldl
    (fun sum e => sum + e.amount) 0)

/-- Claim-side quantity: the sum of member `mid`'s split amounts over the
selected expenses. -/
def memberSplitTotal (expensesThisMonth : List Expense) (mid : String) : Int :=
  (expensesThisMonth.map fun e =>
    ((e.splits.filter fun s => s.memberId == mid).map Split.amount).sum).sum

/-- Claim-side quantity: the sum of all split amounts over the selected
expenses. -/
def allSplitTotal (expensesThisMonth : List Expense) : Int :=
  (expensesThisMonth.map fun e => (e.splits.map Split.amount).sum).sum

/-! CSV export, from the expense tracker's `handleExportCSV`
(src/components/AiReport.tsx). -/

/-- The character expansion of `cell.replace(/"/g, '""')`: every quote
character doubled. -/
def doubleQuotes (l : List Char) : List Char :=
  (l.map fun c => if c = '"' then ['"', '"'] else [c]).flatten

/-- Source `formatCSVCell`: wrap a field in double quotes (doubling interior
quotes) exactly when it contains a comma, a quote, or a newline. -/
def formatCSVCell (cellData : String) : String :=
  if cellData.data.contains ',' || cellData.data.contains '"' ||
      cellData.data.contains '\n' then
    ⟨'"' :: doubleQuotes cellData.data ++ ['"']⟩
  else cellData

/-- Spec-side inverse of `formatCSVCell`: strip a leading quote and the
trailing quote, un-doubling interior quotes; other strings pass through. -/
def undoubleQuotes : List Char → List Char
  | [] => []
  | [c] => [c]
  | c :: d :: rest =>
    if c = '"' ∧ d = '"' then '"' :: undoubleQuotes rest
    else c :: undoubleQuotes (d :: rest)

def csvUnquoteCell (s : String) : String :=
  match s.data with
  | '"' :: rest => ⟨undoubleQuotes rest.dropLast⟩
  | _ => s

/-- Source expression `(cents / 100).toFixed(2)`: the exact decimal rendering of a cent
amount (exact for every integer a double represents exactly). -/
def toFixed2 (cents : Int) : String :=
  (if cents < 0 then "-" else "") ++ (cents.natAbs / 100).repr ++ "." ++
    (if cents.natAbs % 100 < 10 then "0" else "") ++ (cents.natAbs % 100).repr

/-- Source expression `getCategory(id)?.name || 'Uncategorized'` (`||` also replaces an
empty name). -/
def categoryCellName (categories : List Category) (id : String) : String :=
  match categories.find? fun c => c.id == id with
  | some c => if c.name = "" then "Uncategorized" else c.name
  | none => "Uncategorized"

/-- Source expression `getMember(id)?.name || 'Unknown'`. -/
def memberCellName (members : List Member) (id : String) : String :=
  match members.find? fun m => m.id == id with
  | some m => if m.name = "" then "Unknown" else m.name
  | none => "Unknown"

/-- One data row: expense id, ISO day (the source's
`new Date(exp.date).toISOString().split('T')[0]`, modelled by the `isoDay`
parameter), description, total amount, category name, payer name, split
member name, split amount. -/
def csvRowOf (categories : List Category) (members : List Member)
    (isoDay : String → String) (exp : Expense) (split : Split) : List String :=
  [formatCSVCell exp.id,
   isoDay exp.date,
   formatCSVCell exp.description,
   toFixed2 exp.amount,
   formatCSVCell (categoryCellName categories exp.categoryId),
   formatCSVCell (memberCellName members exp.memberId),
   formatCSVCell (memberCellName members split.memberId),
   toFixed2 split.amount]

/-- The inner `forEach`: push one row per split with `split.amount > 0`. -/
def csvRowsOfExpense (categories : List Category) (members : List Member)
    (isoDay : String → String) (exp : Expense) : List (List String) :=
  exp.splits.foldl
    (fun rows split =>
      if 0 < split.amount then rows ++ [csvRowOf categories members isoDay exp split]
      else rows)
    []

/-- The outer `forEach`: all data rows, in expense order. -/
def csvDataRows (categories : List Category) (members : List Member)
    (isoDay : String → String) (expenses : List Expense) : List (List String) :=
  expenses.foldl (fun rows exp => rows ++ csvRowsOfExpense categories members isoDay exp) []

def csvHeaders : List String :=
  ["Expense ID", "Date", "Description", "Total Amount (INR)", "Category", "Payer",
   "Split Member", "Member's Share (INR)"]

/-- The full export text: header row followed by the data rows, cells
joined by commas and rows by newlines. -/
def handleExportCSV (categories : List Category) (members : List Member)
    (isoDay : String → String) (expenses : List Expense) : String :=
  String.intercalate "\n"
    ((csvHeaders :: csvDataRows categories members isoDay expenses).map fun row =>
      String.intercalate "," row)

/-! Trend series, from src/utils/chartUtils.ts (`prepareTrendData`). -/

/-- The `(getFullYear(), getMonth(), getDate())` view of a `Date`:
`month` is 0-based (0 = January), `day` is 1-based. -/
structure DateParts where
  year : Int
  month : Nat
  day : Nat
deriving DecidableEq, Repr

def isLeapYear (y : Int) : Bool :=
  (y % 4 == 0 && y % 100 != 0) || y % 400 == 0

/-- Source expression `new Date(y, m + 1, 0).getDate()`: the day count of month `m`
(0-based) of year `y`. -/
def daysInMonthJS (y : Int) (m : Nat) : Nat :=
  [31, if isLeapYear y then 29 else 28, 31, 30, 31, 30, 31, 31, 30, 31, 30, 31].getD m 31

def inCurrentMonth (currentYear : Int) (currentMonth : Nat) (d : DateParts) : Bool :=
  d.year == currentYear && d.month == currentMonth

/-- The source's previous-month test, verbatim:
`(currentMonth === 0 && expenseYear === currentYear - 1 && expenseMonth === 11) ||
 (expenseYear === currentYear && expenseMonth === currentMonth - 1)`
(the subtraction `currentMonth - 1` is over JavaScript numbers, hence the
`Int` cast). -/
def inPreviousMonth (currentYear : Int) (currentMonth : Nat) (d : DateParts) : Bool :=
  (currentMonth == 0 && d.year == currentYear - 1 && d.month == 11) ||
    (d.year == currentYear && (d.month : Int) == (currentMonth : Int) - 1)

/-- The day-`i` bucket (0-based) of `tempCurrent` / `tempPrevious`: the
sum of `expense.amount / 100` over the expenses of the month that fall on
day `i + 1`. -/
def daySumQ (parse : String → DateParts) (inMonth : DateParts → Bool)
    (expenses : List Expense) (i : Nat) : ℚ :=
  ((expenses.filter fun e =>
      inMonth (parse e.date) && decide ((((parse e.date).day : Int) - 1) = (i : Int))).map
    fun e => (e.amount : ℚ) / 100).sum

/-- The final length-adjustment block of `prepareTrendData`: truncate the
previous-month series when it is longer than the current month, pad it by
repeating `previousMonthData[length - 1] || 0` when shorter. -/
def adjustPrevLength (prev : List ℚ) (daysInCurrentMonth : Nat) : List ℚ :=
  if daysInCurrentMonth < prev.length then prev.take daysInCurrentMonth
  else if prev.length < daysInCurrentMonth then
    prev ++ List.replicate (daysInCurrentMonth - prev.length) (prev.getLast?.getD 0)
  else prev

structure TrendData where
  labels : List String
  currentMonthData : List (Option ℚ)
  previousMonthData : List ℚ
deriving Repr

/-- Source `prepareTrendData`: cumulative daily series for the current and the
previous calendar month.  `parse` models `new Date(expense.date)`, `now`
models `new Date()`.  `previousMonthData` is allocated with
`new Array(daysInCurrentMonth).fill(0)` and written at the indexes the
`tempPrevious` reduce reaches (`i < previousMonthData.length`), which the
comprehension below reproduces. -/
def prepareTrendData (parse : String → DateParts) (now : DateParts)
    (expenses : List Expense) : TrendData :=
  let currentYear := now.year
  let currentMonth := now.month
  let today := now.day
  let daysInCurrentMonth := daysInMonthJS currentYear currentMonth
  let prevYear : Int := if currentMonth = 0 then currentYear - 1 else currentYear
  let prevMonth : Nat := if currentMonth = 0 then 11 else currentMonth - 1
  let daysInPreviousMonth := daysInMonthJS prevYear prevMonth
  let tempCurrent : List ℚ := (List.range daysInCurrentMonth).map
    (daySumQ parse (inCurrentMonth currentYear currentMonth) expenses)
  let tempPrevious : List ℚ := (List.range daysInPreviousMonth).map
    (daySumQ parse (inPreviousMonth currentYear currentMonth) expenses)
  let currentMonthData : List (Option ℚ) := (List.range daysInCurrentMonth).map fun i =>
    if i < today then some (tempCurrent.take (i + 1)).sum else none
  let previousMonthData : List ℚ := (List.range daysInCurrentMonth).map fun i =>
    if i < daysInPreviousMonth then (tempPrevious.take (i + 1)).sum else 0
  { labels := (List.range daysInCurrentMonth).map fun i => (i + 1).repr
    currentMonthData := currentMonthData
    previousMonthData := adjustPrevLength previousMonthData daysInCurrentMonth }

/-! Demo data shared by concrete instantiations. -/

def demoHousehold : Household :=
  { members := [⟨"a", "Alice", "u"⟩]
    categories := [⟨"cat-1", "Food", "i"⟩]
    rules := []
    expenses := []
    budgets := [⟨"b1", "cat-1", 100000⟩] }

def demoDraft (amt : Int) : NewExpense :=
  { description := "x", amount := amt, categoryId := "cat-1", memberId := "a",
    date := "d", splits := [⟨"a", amt⟩] }

/-! Helper lemmas. -/

theorem sum_range_base_add_ite (base r : Int) (hr : 0 ≤ r) (n : Nat) :
    (((List.range n).map fun (i : Nat) => base + if (i : Int) < r then 1 else 0).sum)
      = n * base + min r n := by
  induction n with
  | zero =>
    simpa using (min_eq_right hr).symm
  | succ n ih =>
    rw [List.range_succ, List.map_append, List.sum_append, ih]
    have hmul : ((n : Int) + 1) * base = (n : Int) * base + base := by ring
    by_cases hni : (n : Int) < r
    · simp only [List.map_cons, List.map_nil, List.sum_cons, List.sum_nil, if_pos hni]
      push_cast
      rw [hmul]
      omega
    · simp only [List.map_cons, List.map_nil, List.sum_cons, List.sum_nil, if_neg hni]
      push_cast
      rw [hmul]
      omega

theorem filter_pos_sum_of_nonneg (splits : List Split) (h : ∀ s ∈ splits, 0 ≤ s.amount) :
    (((splits.filter fun s => decide (0 < s.amount)).map Split.amount).sum)
      = ((splits.map Split.amount).sum) := by
  induction splits with
  | nil => rfl
  | cons s t ih =>
    have hs : 0 ≤ s.amount := h s (List.mem_cons_self s t)
    have ht : ∀ x ∈ t, 0 ≤ x.amount := fun x hx => h x (List.mem_cons_of_mem s hx)
    by_cases hpos : 0 < s.amount
    · simp [List.filter_cons, hpos, ih ht]
    · have hz : s.amount = 0 := le_antisymm (not_lt.mp hpos) hs
      simp [List.filter_cons, hpos, ih ht, hz]

/-- C1: for every positive total and non-empty member list,
`handleSplitEqually` produces one split per member in member-list order,
giving member `i` exactly `⌊total / n⌋` cents plus one extra cent when
`i < total mod n`; the amounts sum to exactly the total; and splitting
1000 cents across three members yields `[334, 333, 333]` in order. -/
theorem equal_split_correct (totalAmountCents : Int) (members : List Member)
    (htotal : 0 < totalAmountCents) (hmembers : members ≠ []) :
    (handleSplitEqually totalAmountCents members).length = members.length ∧
    (∀ i : Nat, ∀ hi : i < members.length,
      (handleSplitEqually totalAmountCents members)[i]? =
        some { memberId := (members.get ⟨i, hi⟩).id
               amount := totalAmountCents / (members.length : Int) +
                 if (i : Int) < totalAmountCents % (members.length : Int) then 1 else 0 }) ∧
    ((handleSplitEqually totalAmountCents members).map Split.amount).sum = totalAmountCents ∧
    (handleSplitEqually 1000
        [⟨"a", "A", "u"⟩, ⟨"b", "B", "u"⟩, ⟨"c", "C", "u"⟩]).map Split.amount =
      [334, 333, 333] := by
  have hlen : members.length ≠ 0 := fun h => hmembers (List.length_eq_zero.mp h)
  have hcond : ¬(totalAmountCents ≤ 0 ∨ members.length = 0) := by
    push_neg
    exact ⟨htotal, hlen⟩
  have hn : (0 : Int) < (members.length : Int) := by
    exact_mod_cast Nat.pos_of_ne_zero hlen
  refine ⟨?_, ?_, ?_, by decide⟩
  · unfold handleSplitEqually
    rw [if_neg hcond]
    simp [List.enum_length]
  · intro i hi
    have hie : i < members.enum.length := by simpa [List.enum_length] using hi
    have henum : (members.enum)[i]? = some (i, members.get ⟨i, hi⟩) := by
      rw [List.getElem?_eq_getElem hie]
      simp [List.getElem_enum]
    unfold handleSplitEqually
    rw [if_neg hcond]
    simp [List.getElem?_map, henum]
  · have hmap : (handleSplitEqually totalAmountCents members).map Split.amount =
        (List.range members.length).map fun (i : Nat) =>
          totalAmountCents / (members.length : Int) +
            if (i : Int) < totalAmountCents % (members.length : Int) then 1 else 0 := by
      unfold handleSplitEqually
      rw [if_neg hcond]
      simp only [List.map_map]
      rw [show ((Split.amount ∘ fun p : Nat × Member =>
          ({ memberId := p.2.id,
             amount := totalAmountCents / (members.length : Int) +
               if (p.1 : Int) < totalAmountCents % (members.length : Int) then 1 else 0 } :
            Split))) = ((fun (i : Nat) =>
          totalAmountCents / (members.length : Int) +
            if (i : Int) < totalAmountCents % (members.length : Int) then 1 else 0) ∘
          Prod.fst) from rfl]
      rw [← List.map_map, List.enum_map_fst]
    rw [hmap, sum_range_base_add_ite _ _ (Int.emod_nonneg _ (ne_of_gt hn))]
    have hlt : totalAmountCents % (members.length : Int) < (members.length : Int) :=
      Int.emod_lt_of_pos _ hn
    rw [min_eq_left (le_of_lt hlt)]
    exact Int.ediv_add_emod totalAmountCents (members.length : Int)

/-- C1 witness: the theorem applied at 1000 cents over three members. -/
theorem equal_split_correct_witness :
    (0 : Int) < 1000 ∧
    ([⟨"a", "A", "u"⟩, ⟨"b", "B", "u"⟩, ⟨"c", "C", "u"⟩] : List Member) ≠ [] ∧
    ((handleSplitEqually 1000
        [⟨"a", "A", "u"⟩, ⟨"b", "B", "u"⟩, ⟨"c", "C", "u"⟩]).map Split.amount).sum = 1000 :=
  ⟨by decide, by decide,
   (equal_split_correct 1000 [⟨"a", "A", "u"⟩, ⟨"b", "B", "u"⟩, ⟨"c", "C", "u"⟩]
     (by decide) (by decide)).2.2.1⟩

/-- C7 counterexample: the claim says `suggestCategory` returns none when
the matched rule's category id does not exist in the given categories, but
the source never consults the `categories` parameter: with an empty
category list (which contains no "cat-5") the matched rule's id is
returned anyway. -/
theorem suggest_category_counterexample :
    suggestCategory "NETFLIX Monthly" [⟨"r1", "netflix", "cat-5"⟩] [] = some "cat-5" ∧
    ∀ c ∈ ([] : List Category), c.id ≠ "cat-5" := by
  refine ⟨by decide, ?_⟩
  intro c hc
  exact absurd hc (List.not_mem_nil c)

/-- C7 (amended): `suggestCategory` lower-cases the description and each
rule's keyword, tests substring containment in rule-list order, and
returns the category id of the first matching rule whether or not that id
exists in the given categories; it returns none exactly when no rule
matches.  `suggestCategory "NETFLIX Monthly"` over a netflix rule yields
"cat-5" and "netflex" yields none. -/
theorem suggest_category_first_match (description : String) (rules : List Rule)
    (categories categories' : List Category) :
    suggestCategory description rules categories =
      suggestCategory description rules categories' ∧
    suggestCategory description rules categories =
      (rules.find? fun r => jsIncludes (jsToLower description) (jsToLower r.keyword)).map
        Rule.categoryId ∧
    suggestCategory "NETFLIX Monthly" [⟨"r1", "netflix", "cat-5"⟩] [] = some "cat-5" ∧
    suggestCategory "netflex" [⟨"r1", "netflix", "cat-5"⟩] [] = none := by
  refine ⟨rfl, ?_, by decide, by decide⟩
  induction rules with
  | nil => rfl
  | cons r rest ih =>
    by_cases h : jsIncludes (jsToLower description) (jsToLower r.keyword)
    · simp [suggestCategory, suggestCategoryScan, List.find?_cons, h]
    · simpa [suggestCategory, suggestCategoryScan, List.find?_cons, h] using ih

/-- C2 counterexample: a submission whose splits sum to the total but
contain a negative split is accepted, and the source's
`splits.filter(s => s.amount > 0)` also drops the negative split, so the
persisted splits sum to 150 cents, not the expense's 100-cent amount. -/
theorem submit_negative_split_counterexample :
    handleSubmit "Dinner" 100 "cat-1" "m1" "2024-01-02" [⟨"m1", 150⟩, ⟨"m2", -50⟩] =
      some ⟨"Dinner", 100, "cat-1", "m1", "2024-01-02", [⟨"m1", 150⟩]⟩ ∧
    (([⟨"m1", 150⟩, ⟨"m2", -50⟩] : List Split).map Split.amount).sum = 100 ∧
    (([⟨"m1", 150⟩] : List Split).map Split.amount).sum ≠ 100 := by
  refine ⟨by decide, by decide, by decide⟩

/-- C2 (amended): `handleSubmit` rejects the submission when the trimmed
description is empty, the total is not positive, or the splits do not sum
exactly to the total; when accepted, every split with non-positive amount
(in particular every zero-amount split) is dropped before persisting, and
when no submitted split is negative the persisted splits still sum
exactly to the expense's amount. -/
theorem submit_validation_spec (description : String) (totalAmountCents : Int)
    (categoryId memberId date : String) (splits : List Split) :
    ((jsTrim description = "" ∨ totalAmountCents ≤ 0 ∨
        (splits.map Split.amount).sum ≠ totalAmountCents) →
      handleSubmit description totalAmountCents categoryId memberId date splits = none) ∧
    (∀ e, handleSubmit description totalAmountCents categoryId memberId date splits = some e →
      e.amount = totalAmountCents ∧
      e.splits = splits.filter (fun s => decide (0 < s.amount)) ∧
      (∀ s ∈ e.splits, 0 < s.amount) ∧
      ((∀ s ∈ splits, 0 ≤ s.amount) →
        (e.splits.map Split.amount).sum = e.amount)) := by
  constructor
  · intro h
    unfold handleSubmit
    rw [if_pos]
    rcases h with h | h | h
    · exact Or.inl h
    · exact Or.inr (Or.inl h)
    · exact Or.inr (Or.inr (Or.inr (Or.inr (sub_ne_zero.mpr (Ne.symm (Ne.symm fun hs => h hs.symm))))))
  · intro e he
    unfold handleSubmit at he
    by_cases hcond : jsTrim description = "" ∨ totalAmountCents ≤ 0 ∨ categoryId = "" ∨
        memberId = "" ∨ totalAmountCents - (splits.map Split.amount).sum ≠ 0
    · rw [if_pos hcond] at he
      exact absurd he (by simp)
    · rw [if_neg hcond] at he
      have hsum : (splits.map Split.amount).sum = totalAmountCents := by
        push_neg at hcond
        have := hcond.2.2.2.2
        omega
      have he' : e = { description := jsTrim description
                       amount := totalAmountCents
                       categoryId := categoryId
                       memberId := memberId
                       date := date
                       splits := splits.filter fun s => decide (0 < s.amount) } :=
        (Option.some.injEq _ _ ▸ he).symm
      subst he'
      refine ⟨rfl, rfl, ?_, ?_⟩
      · intro s hs
        simpa using (List.mem_filter.mp hs).2
      · intro hnoneg
        calc ((splits.filter fun s => decide (0 < s.amount)).map Split.amount).sum
            = (splits.map Split.amount).sum := filter_pos_sum_of_nonneg splits hnoneg
          _ = totalAmountCents := hsum

/-- C2 witness: the theorem applied at a rejected input (blank
description) and at an accepted input with non-negative splits, whose
persisted splits sum to the 100-cent amount. -/
theorem submit_validation_spec_witness :
    handleSubmit " " 5 "c" "m" "d" [⟨"m", 5⟩] = none ∧
    (((([⟨"m1", 100⟩, ⟨"m2", 0⟩] : List Split).filter
        fun s => decide (0 < s.amount)).map Split.amount).sum = 100) := by
  constructor
  · exact (submit_validation_spec " " 5 "c" "m" "d" [⟨"m", 5⟩]).1 (Or.inl (by decide))
  · have h := (submit_validation_spec "Dinner" 100 "cat-1" "m1" "d"
      [⟨"m1", 100⟩, ⟨"m2", 0⟩]).2
      ⟨"Dinner", 100, "cat-1", "m1", "d", [⟨"m1", 100⟩]⟩ (by decide)
    have h2 := h.2.2.2 (by decide)
    rw [h.2.1] at h2
    exact h2

theorem anomaly_notifs_no_budget_kind (anomalyOutcome : Except String AnomalyResult) :
    (anomalyNotificationsFor anomalyOutcome).any AppNotification.isBudgetExceeded = false ∧
    (anomalyNotificationsFor anomalyOutcome).any AppNotification.isApproachingBudget = false := by
  cases anomalyOutcome with
  | error e => exact ⟨rfl, rfl⟩
  | ok result =>
    cases h : result.isAnomalous <;>
      simp [anomalyNotificationsFor, h, AppNotification.isBudgetExceeded,
        AppNotification.isApproachingBudget]

/-- C3: when the admitted expense's category has a (first-matching) budget
with positive amount, with `s0` the category's spend already recorded in
the window starting at `startOfMonth` and `s1 = s0 + amount`: the
error-severity budget-exceeded notification is emitted iff `s0 < b ≤ s1`;
the warning-severity approaching-budget notification is emitted iff
`s0 < 0.9·b ≤ s1` and `s1 < b` (stated exactly as `10·s0 < 9·b ≤ 10·s1`);
and the two are never both emitted on one call. -/
theorem budget_threshold_spec (household : Household) (newExpense : NewExpense)
    (freshId : String) (parseDate : String → Int) (startOfMonth : Int)
    (anomalyOutcome : Except String AnomalyResult) (budget : Budget)
    (hfind : household.budgets.find? (fun b => b.categoryId == newExpense.categoryId) =
      some budget)
    (hpos : 0 < budget.amount) :
    ((handleAddExpense household newExpense freshId parseDate startOfMonth
        anomalyOutcome).2.any AppNotification.isBudgetExceeded = true ↔
      (spentBeforeFor household.expenses newExpense.categoryId parseDate startOfMonth <
          budget.amount ∧
        budget.amount ≤
          spentBeforeFor household.expenses newExpense.categoryId parseDate startOfMonth +
            newExpense.amount)) ∧
    ((handleAddExpense household newExpense freshId parseDate startOfMonth
        anomalyOutcome).2.any AppNotification.isApproachingBudget = true ↔
      (10 * spentBeforeFor household.expenses newExpense.categoryId parseDate startOfMonth <
          9 * budget.amount ∧
        9 * budget.amount ≤
          10 * (spentBeforeFor household.expenses newExpense.categoryId parseDate startOfMonth +
            newExpense.amount) ∧
        spentBeforeFor household.expenses newExpense.categoryId parseDate startOfMonth +
            newExpense.amount < budget.amount)) ∧
    ¬((handleAddExpense household newExpense freshId parseDate startOfMonth
        anomalyOutcome).2.any AppNotification.isBudgetExceeded = true ∧
      (handleAddExpense household newExpense freshId parseDate startOfMonth
        anomalyOutcome).2.any AppNotification.isApproachingBudget = true) ∧
    (∀ n ∈ (handleAddExpense household newExpense freshId parseDate startOfMonth
        anomalyOutcome).2,
      (n.isBudgetExceeded = true → n.severity = NotifSeverity.error) ∧
      (n.isApproachingBudget = true → n.severity = NotifSeverity.warning)) := by
  have hanom := anomaly_notifs_no_budget_kind anomalyOutcome
  set s0 := spentBeforeFor household.expenses newExpense.categoryId parseDate startOfMonth
    with hs0
  have hnotifs : (handleAddExpense household newExpense freshId parseDate startOfMonth
      anomalyOutcome).2 =
      (if s0 < budget.amount ∧ budget.amount ≤ s0 + newExpense.amount then
        [AppNotification.budgetExceeded budget.amount
          (categoryNameOr household.categories newExpense.categoryId)]
      else if 10 * s0 < 9 * budget.amount ∧ 9 * budget.amount ≤ 10 * (s0 + newExpense.amount) ∧
          s0 + newExpense.amount < budget.amount then
        [AppNotification.approachingBudget budget.amount
          (categoryNameOr household.categories newExpense.categoryId)]
      else []) ++ anomalyNotificationsFor anomalyOutcome := by
    simp only [handleAddExpense, budgetNotificationsFor, hfind, if_pos hpos, hs0]
  have hex : ((handleAddExpense household newExpense freshId parseDate startOfMonth
      anomalyOutcome).2.any AppNotification.isBudgetExceeded = true) ↔
      (s0 < budget.amount ∧ budget.amount ≤ s0 + newExpense.amount) := by
    rw [hnotifs]
    by_cases h1 : s0 < budget.amount ∧ budget.amount ≤ s0 + newExpense.amount
    · simp [if_pos h1, List.any_append, hanom.1, AppNotification.isBudgetExceeded, h1]
    · rw [if_neg h1]
      by_cases h2 : 10 * s0 < 9 * budget.amount ∧
          9 * budget.amount ≤ 10 * (s0 + newExpense.amount) ∧
          s0 + newExpense.amount < budget.amount
      · simp [if_pos h2, List.any_append, hanom.1, AppNotification.isBudgetExceeded, h1]
      · simp [if_neg h2, List.any_append, hanom.1, h1]
  have happ : ((handleAddExpense household newExpense freshId parseDate startOfMonth
      anomalyOutcome).2.any AppNotification.isApproachingBudget = true) ↔
      (10 * s0 < 9 * budget.amount ∧ 9 * budget.amount ≤ 10 * (s0 + newExpense.amount) ∧
        s0 + newExpense.amount < budget.amount) := by
    rw [hnotifs]
    by_cases h1 : s0 < budget.amount ∧ budget.amount ≤ s0 + newExpense.amount
    · have hno2 : ¬(10 * s0 < 9 * budget.amount ∧
          9 * budget.amount ≤ 10 * (s0 + newExpense.amount) ∧
          s0 + newExpense.amount < budget.amount) := by
        rintro ⟨-, -, hlt⟩
        exact absurd hlt (not_lt.mpr h1.2)
      simp [if_pos h1, List.any_append, hanom.2, AppNotification.isApproachingBudget, hno2]
    · rw [if_neg h1]
      by_cases h2 : 10 * s0 < 9 * budget.amount ∧
          9 * budget.amount ≤ 10 * (s0 + newExpense.amount) ∧
          s0 + newExpense.amount < budget.amount
      · simp [if_pos h2, List.any_append, hanom.2, AppNotification.isApproachingBudget, h2]
      · simp [if_neg h2, List.any_append, hanom.2, h2]
  refine ⟨hex, happ, ?_, fun n _ => ?_⟩
  · rintro ⟨ha, hb⟩
    have h1 := hex.mp ha
    have h2 := happ.mp hb
    exact absurd h2.2.2 (not_lt.mpr h1.2)
  · cases n <;>
      simp [AppNotification.isBudgetExceeded, AppNotification.isApproachingBudget,
        AppNotification.severity]

/-- C3 witness: a 100000-cent Food budget with nothing yet spent and a
95000-cent expense crosses the 90% line but stays under budget, and the
theorem yields the approaching-budget warning. -/
theorem budget_threshold_spec_witness :
    (handleAddExpense demoHousehold (demoDraft 95000) "e1" (fun _ => 0) 0
      (Except.error "boom")).2.any AppNotification.isApproachingBudget = true := by
  have h := budget_threshold_spec demoHousehold (demoDraft 95000) "e1" (fun _ => 0) 0
    (Except.error "boom") ⟨"b1", "cat-1", 100000⟩ (by decide) (by decide)
  exact h.2.1.mpr (by refine ⟨by decide, by decide, by decide⟩)

theorem budget_notifs_length_le_one (household : Household) (newExpense : NewExpense)
    (parseDate : String → Int) (startOfMonth : Int) :
    (budgetNotificationsFor household newExpense parseDate startOfMonth).length ≤ 1 := by
  unfold budgetNotificationsFor
  cases household.budgets.find? fun b => b.categoryId == newExpense.categoryId with
  | none => simp
  | some budget =>
    dsimp only
    by_cases hpos : 0 < budget.amount
    · rw [if_pos hpos]
      split
      · simp
      · split <;> simp
    · simp [if_neg hpos]

theorem budget_notifs_no_anomaly_kind (household : Household) (newExpense : NewExpense)
    (parseDate : String → Int) (startOfMonth : Int) :
    ∀ n ∈ budgetNotificationsFor household newExpense parseDate startOfMonth,
      n.isAnomalyAlert = false := by
  intro n hn
  unfold budgetNotificationsFor at hn
  revert hn
  cases household.budgets.find? fun b => b.categoryId == newExpense.categoryId with
  | none => simp
  | some budget =>
    dsimp only
    by_cases hpos : 0 < budget.amount
    · rw [if_pos hpos]
      split
      · intro hn
        rcases List.mem_singleton.mp hn with rfl
        rfl
      · split
        · intro hn
          rcases List.mem_singleton.mp hn with rfl
          rfl
        · simp
    · simp [if_neg hpos]

/-- C4: if the anomaly oracle call rejects, `recordExpense` still persists
the expense and returns it, and the appended notifications are exactly the
budget-derived ones (at most one, none of them an anomaly alert); if the
oracle resolves and flags the expense, a warning-severity notification
carrying the oracle's reasoning is appended after the budget notification;
and the expense is persisted for every oracle outcome. -/
theorem oracle_failure_isolation (household : Household) (newExpense : NewExpense)
    (freshId : String) (parseDate : String → Int) (startOfMonth : Int) :
    (∀ errMsg : String,
      (recordExpense household newExpense freshId parseDate startOfMonth
          (Except.error errMsg)).2.1 =
        budgetNotificationsFor household newExpense parseDate startOfMonth ∧
      (recordExpense household newExpense freshId parseDate startOfMonth
          (Except.error errMsg)).2.1.length ≤ 1 ∧
      (∀ n ∈ (recordExpense household newExpense freshId parseDate startOfMonth
          (Except.error errMsg)).2.1, n.isAnomalyAlert = false)) ∧
    (∀ result : AnomalyResult, result.isAnomalous = true →
      (recordExpense household newExpense freshId parseDate startOfMonth
          (Except.ok result)).2.1 =
        budgetNotificationsFor household newExpense parseDate startOfMonth ++
          [AppNotification.anomalyAlert result.reasoning] ∧
      (AppNotification.anomalyAlert result.reasoning).severity = NotifSeverity.warning) ∧
    (∀ anomalyOutcome : Except String AnomalyResult,
      (recordExpense household newExpense freshId parseDate startOfMonth anomalyOutcome).1 =
        household.expenses ++
          [(recordExpense household newExpense freshId parseDate startOfMonth
            anomalyOutcome).2.2] ∧
      (recordExpense household newExpense freshId parseDate startOfMonth
          anomalyOutcome).2.2.amount = newExpense.amount ∧
      (recordExpense household newExpense freshId parseDate startOfMonth
          anomalyOutcome).2.2.id = freshId) := by
  refine ⟨fun errMsg => ⟨?_, ?_, ?_⟩, fun result hres => ⟨?_, rfl⟩, fun anomalyOutcome =>
    ⟨rfl, rfl, rfl⟩⟩
  · simp [recordExpense, handleAddExpense, anomalyNotificationsFor]
  · have h : (recordExpense household newExpense freshId parseDate startOfMonth
        (Except.error errMsg)).2.1 =
        budgetNotificationsFor household newExpense parseDate startOfMonth := by
      simp [recordExpense, handleAddExpense, anomalyNotificationsFor]
    rw [h]
    exact budget_notifs_length_le_one household newExpense parseDate startOfMonth
  · have h : (recordExpense household newExpense freshId parseDate startOfMonth
        (Except.error errMsg)).2.1 =
        budgetNotificationsFor household newExpense parseDate startOfMonth := by
      simp [recordExpense, handleAddExpense, anomalyNotificationsFor]
    rw [h]
    exact budget_notifs_no_anomaly_kind household newExpense parseDate startOfMonth
  · simp [recordExpense, handleAddExpense, anomalyNotificationsFor, hres]

/-- C4 witness: the theorem applied to the demo household with a rejecting
oracle (notifications stay budget-only and anomaly-free) and with a
resolving oracle that flags the expense (warning appended last). -/
theorem oracle_failure_isolation_witness :
    (recordExpense demoHousehold (demoDraft 500) "e1" (fun _ => 0) 0
        (Except.error "boom")).2.1 =
      budgetNotificationsFor demoHousehold (demoDraft 500) (fun _ => 0) 0 ∧
    (recordExpense demoHousehold (demoDraft 500) "e1" (fun _ => 0) 0
        (Except.ok ⟨true, "odd"⟩)).2.1 =
      budgetNotificationsFor demoHousehold (demoDraft 500) (fun _ => 0) 0 ++
        [AppNotification.anomalyAlert "odd"] ∧
    (recordExpense demoHousehold (demoDraft 500) "e1" (fun _ => 0) 0
        (Except.error "boom")).1 =
      demoHousehold.expenses ++
        [(recordExpense demoHousehold (demoDraft 500) "e1" (fun _ => 0) 0
          (Except.error "boom")).2.2] := by
  have h := oracle_failure_isolation demoHousehold (demoDraft 500) "e1" (fun _ => 0) 0
  exact ⟨(h.1 "boom").1, (h.2.1 ⟨true, "odd"⟩ (by decide)).1, (h.2.2 (Except.error "boom")).1⟩

theorem memberObjInit_apply (members : List Member) (obj : String → Option Int)
    (key : String) :
    (members.foldl (fun obj m => fun k => if k = m.id then some 0 else obj k) obj) key =
      if key ∈ members.map Member.id then some 0 else obj key := by
  induction members generalizing obj with
  | nil => simp
  | cons m ms ih =>
    rw [List.foldl_cons, ih]
    by_cases hms : key ∈ ms.map Member.id
    · simp [hms]
    · by_cases hm : key = m.id
      · simp [hms, hm]
      · simp [hms, hm]

theorem applySplitToObj_apply (obj : String → Option Int) (s : Split) (key : String)
    (v : Int) (h : obj key = some v) :
    applySplitToObj obj s key = some (v + if s.memberId = key then s.amount else 0) := by
  unfold applySplitToObj
  cases hobj : obj s.memberId with
  | none =>
    have hne : s.memberId ≠ key := fun he => by rw [he, h] at hobj; exact Option.noConfusion hobj
    simp [h, hne]
  | some w =>
    by_cases hk : key = s.memberId
    · subst hk
      rw [h] at hobj
      rcases Option.some.injEq _ _ ▸ hobj with rfl
      simp
    · have hne : s.memberId ≠ key := fun he => hk he.symm
      simp [hk, h, hne]

theorem foldl_applySplitToObj_apply (splits : List Split) (obj : String → Option Int)
    (key : String) (v : Int) (h : obj key = some v) :
    (splits.foldl applySplitToObj obj) key =
      some (v + ((splits.filter fun s => s.memberId == key).map Split.amount).sum) := by
  induction splits generalizing obj v with
  | nil => simpa using h
  | cons s t ih =>
    rw [List.foldl_cons]
    rw [ih (applySplitToObj obj s) (v + if s.memberId = key then s.amount else 0)
      (applySplitToObj_apply obj s key v h)]
    by_cases hk : s.memberId = key
    · simp [List.filter_cons, hk, add_assoc]
    · simp [List.filter_cons, hk]

theorem foldl_applyExpenseToObj_apply (expenses : List Expense) (obj : String → Option Int)
    (key : String) (v : Int) (h : obj key = some v) :
    (expenses.foldl applyExpenseToObj obj) key = some (v + memberSplitTotal expenses key) := by
  induction expenses generalizing obj v with
  | nil => simpa [memberSplitTotal] using h
  | cons e t ih =>
    rw [List.foldl_cons]
    rw [ih (applyExpenseToObj obj e)
      (v + ((e.splits.filter fun s => s.memberId == key).map Split.amount).sum)
      (foldl_applySplitToObj_apply e.splits obj key v h)]
    simp [memberSplitTotal, add_assoc]

theorem memberSpendingObj_apply (members : List Member) (expenses : List Expense)
    (key : String) (h : key ∈ members.map Member.id) :
    memberSpendingObj members expenses key = some (memberSplitTotal expenses key) := by
  unfold memberSpendingObj
  have hinit : memberObjInit members key = some 0 := by
    unfold memberObjInit
    rw [memberObjInit_apply, if_pos h]
  simpa using foldl_applyExpenseToObj_apply expenses (memberObjInit members) key 0 hinit

theorem insertBySpentDesc_perm (x : Member × Int) (l : List (Member × Int)) :
    (insertBySpentDesc x l).Perm (x :: l) := by
  induction l with
  | nil => exact List.Perm.refl _
  | cons y ys ih =>
    unfold insertBySpentDesc
    by_cases hle : y.2 ≤ x.2
    · rw [if_pos hle]
    · rw [if_neg hle]
      exact (List.Perm.cons y ih).trans (List.Perm.swap x y ys)

theorem sortBySpentDesc_perm (l : List (Member × Int)) : (sortBySpentDesc l).Perm l := by
  induction l with
  | nil => exact List.Perm.refl _
  | cons x xs ih =>
    unfold sortBySpentDesc
    rw [List.foldr_cons]
    exact (insertBySpentDesc_perm x _).trans (List.Perm.cons x ih)

theorem spendingByMember_eq (members : List Member) (expensesThisMonth : List Expense) :
    spendingByMember members expensesThisMonth =
      sortBySpentDesc (members.map fun m => (m, memberSplitTotal expensesThisMonth m.id)) := by
  unfold spendingByMember
  congr 1
  apply List.map_congr_left
  intro m hm
  rw [memberSpendingObj_apply members expensesThisMonth m.id
    (List.mem_map_of_mem Member.id hm)]
  rfl

theorem foldl_add_eq_sum_map {α : Type} (f : α → Int) (l : List α) (init : Int) :
    l.foldl (fun sum x => sum + f x) init = init + (l.map f).sum := by
  induction l generalizing init with
  | nil => simp
  | cons x t ih =>
    rw [List.foldl_cons, ih]
    simp [add_assoc]

/-- C5: over any month-selected expense list — including rows whose
splits sum to less or more than the full amount — each member's
`spendingByMember` total is the sum of that member's split amounts, while
`totalExpensesThisMonth` and the per-category Budgets Overview totals are
sums of full expense amounts (the closed instance shows a row whose split
total 70 differs from its full amount 100, and the aggregate follows the
full amount). -/
theorem monthly_aggregate_spec (members : List Member) (expensesThisMonth : List Expense) :
    (∀ m ∈ members,
      (m, memberSplitTotal expensesThisMonth m.id) ∈
        spendingByMember members expensesThisMonth) ∧
    totalExpensesThisMonth expensesThisMonth = (expensesThisMonth.map Expense.amount).sum ∧
    (∀ categoryId : String, categorySpentThisMonth expensesThisMonth categoryId =
      ((expensesThisMonth.filter fun e => e.categoryId == categoryId).map Expense.amount).sum) ∧
    (totalExpensesThisMonth
        [⟨"e1", "d", 100, "x", "a", "c", [⟨"a", 30⟩, ⟨"b", 40⟩]⟩] = 100 ∧
      allSplitTotal [⟨"e1", "d", 100, "x", "a", "c", [⟨"a", 30⟩, ⟨"b", 40⟩]⟩] = 70 ∧
      (100 : Int) ≠ 70) := by
  refine ⟨?_, ?_, ?_, by decide, by decide, by decide⟩
  · intro m hm
    rw [spendingByMember_eq]
    exact ((sortBySpentDesc_perm _).mem_iff).mpr
      (List.mem_map_of_mem (fun m => (m, memberSplitTotal expensesThisMonth m.id)) hm)
  · simpa using foldl_add_eq_sum_map Expense.amount expensesThisMonth 0
  · intro categoryId
    simpa using foldl_add_eq_sum_map Expense.amount
      (expensesThisMonth.filter fun e => e.categoryId == categoryId) 0

/-- C5 witness: the theorem applied to one member and one expense whose
splits include an unmatched member id; Alice's row carries exactly her
split total. -/
theorem monthly_aggregate_spec_witness :
    ((⟨"a", "Alice", "u"⟩ : Member),
        memberSplitTotal [⟨"e1", "d", 120, "x", "a", "c", [⟨"a", 50⟩, ⟨"ghost", 70⟩]⟩] "a") ∈
      spendingByMember [⟨"a", "Alice", "u"⟩]
        [⟨"e1", "d", 120, "x", "a", "c", [⟨"a", 50⟩, ⟨"ghost", 70⟩]⟩] ∧
    memberSplitTotal [⟨"e1", "d", 120, "x", "a", "c", [⟨"a", 50⟩, ⟨"ghost", 70⟩]⟩] "a" = 50 :=
  ⟨(monthly_aggregate_spec [⟨"a", "Alice", "u"⟩]
      [⟨"e1", "d", 120, "x", "a", "c", [⟨"a", 50⟩, ⟨"ghost", 70⟩]⟩]).1
    ⟨"a", "Alice", "u"⟩ (by decide), by decide⟩

/-- C10: splits whose member id matches no current household member are
silently ignored — dropping them changes nothing in `spendingByMember`,
the computation stays total with one integer row per member, and in the
closed instance the displayed totals sum to 50 while the splits sum to
120. -/
theorem unknown_member_splits_ignored (members : List Member) (expenses : List Expense) :
    spendingByMember members expenses =
      spendingByMember members (expenses.map fun e =>
        { e with splits := e.splits.filter fun s => decide (s.memberId ∈ members.map Member.id) }) ∧
    (spendingByMember members expenses).length = members.length ∧
    (totalSpentByMembers [⟨"a", "Alice", "u"⟩]
        [⟨"e1", "d", 120, "x", "a", "c", [⟨"a", 50⟩, ⟨"ghost", 70⟩]⟩] = 50 ∧
      allSplitTotal [⟨"e1", "d", 120, "x", "a", "c", [⟨"a", 50⟩, ⟨"ghost", 70⟩]⟩] = 120 ∧
      (50 : Int) < 120) := by
  refine ⟨?_, ?_, by decide, by decide, by decide⟩
  · rw [spendingByMember_eq, spendingByMember_eq]
    congr 1
    apply List.map_congr_left
    intro m hm
    have hmide : m.id ∈ members.map Member.id := List.mem_map_of_mem Member.id hm
    have hper : ∀ e : Expense,
        ((({ e with splits := e.splits.filter fun s =>
              decide (s.memberId ∈ members.map Member.id) } : Expense).splits.filter
            fun s => s.memberId == m.id).map Split.amount).sum =
          ((e.splits.filter fun s => s.memberId == m.id).map Split.amount).sum := by
      intro e
      dsimp only
      rw [List.filter_filter]
      apply congrArg
      apply congrArg
      apply List.filter_congr
      intro s _
      by_cases hs : s.memberId = m.id
      · simp [hs, hmide]
      · simp [hs]
    congr 1
    unfold memberSplitTotal
    rw [List.map_map]
    apply congrArg List.sum
    apply List.map_congr_left
    intro e _
    exact (hper e).symm
  · rw [spendingByMember_eq]
    rw [(sortBySpentDesc_perm _).length_eq]
    simp

theorem undouble_double (l : List Char) : undoubleQuotes (doubleQuotes l) = l := by
  induction l with
  | nil => rfl
  | cons c t ih =>
    by_cases hc : c = '"'
    · subst hc
      have hdq : doubleQuotes ('"' :: t) = '"' :: '"' :: doubleQuotes t := by
        simp [doubleQuotes]
      rw [hdq]
      simp [undoubleQuotes, ih]
    · have hdq : doubleQuotes (c :: t) = c :: doubleQuotes t := by
        simp [doubleQuotes, hc]
      rw [hdq]
      cases hdqt : doubleQuotes t with
      | nil =>
        have ht : t = [] := by
          have := ih
          rw [hdqt] at this
          simpa [undoubleQuotes] using this.symm
        subst ht
        simp [undoubleQuotes]
      | cons d ds =>
        have : undoubleQuotes (c :: d :: ds) = c :: undoubleQuotes (d :: ds) := by
          simp [undoubleQuotes, hc]
        rw [this, ← hdqt, ih]

theorem foldl_push_filter {α β : Type} (p : α → Prop) [DecidablePred p] (f : α → β)
    (l : List α) (init : List β) :
    l.foldl (fun acc x => if p x then acc ++ [f x] else acc) init =
      init ++ (l.filter fun x => decide (p x)).map f := by
  induction l generalizing init with
  | nil => simp
  | cons x t ih =>
    rw [List.foldl_cons]
    by_cases hx : p x
    · simp [hx, ih, List.filter_cons]
    · simp [hx, ih, List.filter_cons]

theorem foldl_append_flatten {α β : Type} (g : α → List β) (l : List α) (init : List β) :
    l.foldl (fun acc x => acc ++ g x) init = init ++ (l.map g).flatten := by
  induction l generalizing init with
  | nil => simp
  | cons x t ih =>
    rw [List.foldl_cons, ih]
    simp

/-- C6 counterexample: an expense whose splits sum exactly to its
100-cent amount but include a negative split exports a single row whose
split-amount column reads "1.50" while its total-amount column reads
"1.00": the split column of its rows does not sum to the shown total. -/
theorem csv_split_sum_counterexample :
    ((([⟨"a", 150⟩, ⟨"g", -50⟩] : List Split).map Split.amount).sum = 100) ∧
    csvRowsOfExpense [⟨"cat-1", "Food", "i"⟩] [⟨"a", "Alice", "u"⟩] (fun s => s)
        ⟨"e1", "Dinner", 100, "2024-01-02", "a", "cat-1", [⟨"a", 150⟩, ⟨"g", -50⟩]⟩ =
      [["e1", "2024-01-02", "Dinner", "1.00", "Food", "Alice", "Alice", "1.50"]] ∧
    (150 : Int) ≠ 100 ∧
    ("1.50" : String) ≠ "1.00" := by
  exact ⟨by decide, by decide, by decide, by decide⟩

/-- C6 (amended): the export emits exactly one data row per split with
positive amount (zero-amount splits produce no row), in order;
`formatCSVCell` wraps a field containing a comma, quote, or newline in
double quotes with interior quotes doubled (and un-quoting recovers the
field exactly); and for every exported expense whose splits are all
non-negative and sum to its amount, the split-amount cents of its rows
sum exactly to the amount rendered in its total-amount column. -/
theorem csv_export_spec (categories : List Category) (members : List Member)
    (isoDay : String → String) (expenses : List Expense) :
    (∀ exp : Expense, csvRowsOfExpense categories members isoDay exp =
      (exp.splits.filter fun s => decide (0 < s.amount)).map
        (csvRowOf categories members isoDay exp)) ∧
    (csvDataRows categories members isoDay expenses =
      (expenses.map (csvRowsOfExpense categories members isoDay)).flatten) ∧
    (∀ cell : String,
      ((cell.data.contains ',' || cell.data.contains '"' ||
          cell.data.contains '\n') = true →
        formatCSVCell cell = ⟨'"' :: doubleQuotes cell.data ++ ['"']⟩) ∧
      ((cell.data.contains ',' || cell.data.contains '"' ||
          cell.data.contains '\n') = false →
        formatCSVCell cell = cell) ∧
      csvUnquoteCell (formatCSVCell cell) = cell) ∧
    (∀ exp : Expense, (∀ s ∈ exp.splits, 0 ≤ s.amount) →
      (exp.splits.map Split.amount).sum = exp.amount →
      (((exp.splits.filter fun s => decide (0 < s.amount)).map Split.amount).sum =
          exp.amount ∧
        (csvRowsOfExpense categories members isoDay exp).map (fun row => row.getD 7 "") =
          (exp.splits.filter fun s => decide (0 < s.amount)).map
            (fun s => toFixed2 s.amount) ∧
        ∀ row ∈ csvRowsOfExpense categories members isoDay exp,
          row.getD 3 "" = toFixed2 exp.amount)) := by
  have hrows : ∀ exp : Expense, csvRowsOfExpense categories members isoDay exp =
      (exp.splits.filter fun s => decide (0 < s.amount)).map
        (csvRowOf categories members isoDay exp) := by
    intro exp
    unfold csvRowsOfExpense
    rw [foldl_push_filter]
    simp
  refine ⟨hrows, ?_, ?_, ?_⟩
  · unfold csvDataRows
    rw [foldl_append_flatten]
    simp
  · intro cell
    obtain ⟨l⟩ := cell
    by_cases hsp : (List.contains l ',' || List.contains l '"' ||
        List.contains l '\n') = true
    · have hfmt : formatCSVCell ⟨l⟩ = ⟨'"' :: doubleQuotes l ++ ['"']⟩ := by
        unfold formatCSVCell
        rw [if_pos]
        simpa using hsp
      refine ⟨fun _ => hfmt, fun hcontra => ?_, ?_⟩
      · rw [show (String.mk l).data = l from rfl] at hcontra
        rw [hcontra] at hsp
        exact Bool.noConfusion hsp
      · rw [hfmt]
        show csvUnquoteCell ⟨'"' :: (doubleQuotes l ++ ['"'])⟩ = ⟨l⟩
        unfold csvUnquoteCell
        show String.mk (undoubleQuotes (doubleQuotes l ++ ['"']).dropLast) = ⟨l⟩
        rw [List.dropLast_concat, undouble_double]
    · have hsp' : (List.contains l ',' || List.contains l '"' ||
          List.contains l '\n') = false := by
        cases h : (List.contains l ',' || List.contains l '"' || List.contains l '\n')
        · rfl
        · exact absurd h hsp
      have hfmt : formatCSVCell ⟨l⟩ = ⟨l⟩ := by
        unfold formatCSVCell
        rw [if_neg]
        simpa using hsp
      refine ⟨fun hcontra => absurd hcontra hsp, fun _ => hfmt, ?_⟩
      rw [hfmt]
      have hqf : List.contains l '"' = false := by
        rcases Bool.or_eq_false_iff.mp hsp' with ⟨h12, h3⟩
        exact (Bool.or_eq_false_iff.mp h12).2
      cases l with
      | nil => rfl
      | cons c cs =>
        unfold csvUnquoteCell
        split
        · next rest heq =>
          have hc : c = '"' := by
            have heq' : c :: cs = '"' :: rest := heq
            exact (List.cons.injEq _ _ _ _ ▸ heq').1
          subst hc
          simp at hqf
        · rfl
  · intro exp hnoneg hsum
    refine ⟨?_, ?_, ?_⟩
    · rw [filter_pos_sum_of_nonneg exp.splits hnoneg, hsum]
    · rw [hrows exp, List.map_map]
      apply List.map_congr_left
      intro s _
      rfl
    · intro row hrow
      rw [hrows exp] at hrow
      rcases List.mem_map.mp hrow with ⟨split, _, rfl⟩
      rfl

/-- C6 witness: the theorem applied to an expense with two positive
splits summing to its amount (their cents sum to the shown 100) and to a
comma-carrying field (quoted wrapping). -/
theorem csv_export_spec_witness :
    (((([⟨"a", 60⟩, ⟨"b", 40⟩] : List Split).filter fun s => decide (0 < s.amount)).map
        Split.amount).sum = 100) ∧
    formatCSVCell "a,b" = "\"a,b\"" := by
  have h := csv_export_spec [] [] (fun s => s) []
  refine ⟨(h.2.2.2 ⟨"e1", "Dinner", 100, "d", "a", "c", [⟨"a", 60⟩, ⟨"b", 40⟩]⟩
    (by decide) (by decide)).1, ?_⟩
  have hq := (h.2.2.1 "a,b").1 (by decide)
  calc formatCSVCell "a,b" = ⟨'"' :: doubleQuotes "a,b".data ++ ['"']⟩ := hq
    _ = "\"a,b\"" := by decide

theorem adjustPrevLength_eq_self (l : List ℚ) (d : Nat) (h : l.length = d) :
    adjustPrevLength l d = l := by
  simp [adjustPrevLength, h]

theorem getElem?_map_range {α : Type} (n i : Nat) (f : Nat → α) (h : i < n) :
    ((List.range n).map f)[i]? = some (f i) := by
  rw [List.getElem?_map, List.getElem?_range h]
  rfl

theorem getD_map_range {α : Type} (n i : Nat) (f : Nat → α) (d : α) (h : i < n) :
    ((List.range n).map f).getD i d = f i := by
  rw [List.getD_eq_getElem?_getD, getElem?_map_range n i f h]
  rfl

theorem prepareTrendData_cur_length (parse : String → DateParts) (now : DateParts)
    (expenses : List Expense) :
    (prepareTrendData parse now expenses).currentMonthData.length =
      daysInMonthJS now.year now.month := by
  simp [prepareTrendData]

theorem prepareTrendData_prev_length (parse : String → DateParts) (now : DateParts)
    (expenses : List Expense) :
    (prepareTrendData parse now expenses).previousMonthData.length =
      daysInMonthJS now.year now.month := by
  unfold prepareTrendData
  dsimp only
  rw [adjustPrevLength_eq_self _ _ (by simp)]
  simp

theorem prepareTrendData_prev_entry (parse : String → DateParts) (now : DateParts)
    (expenses : List Expense) (i : Nat) (py : Int) (pm : Nat) (dp : Nat)
    (hpy : py = if now.month = 0 then now.year - 1 else now.year)
    (hpm : pm = if now.month = 0 then 11 else now.month - 1)
    (hdp : dp = daysInMonthJS py pm)
    (hi : i < daysInMonthJS now.year now.month) :
    (prepareTrendData parse now expenses).previousMonthData.getD i 0 =
      if i < dp then
        (((List.range dp).map
            (daySumQ parse (inPreviousMonth now.year now.month) expenses)).take (i + 1)).sum
      else 0 := by
  subst hpy hpm hdp
  unfold prepareTrendData
  dsimp only
  rw [adjustPrevLength_eq_self _ _ (by simp)]
  exact getD_map_range _ i _ 0 hi

theorem list_sum_range_single (n k : Nat) (v : ℚ) (hk : k < n) :
    ((List.range n).map fun j => if j = k then v else 0).sum = v := by
  induction n with
  | zero => exact absurd hk (Nat.not_lt_zero k)
  | succ n ih =>
    rw [List.range_succ, List.map_append, List.sum_append]
    by_cases hkn : k = n
    · subst hkn
      have hz : ((List.range k).map fun j => if j = k then v else 0).sum = 0 := by
        apply List.sum_eq_zero
        intro x hx
        rcases List.mem_map.mp hx with ⟨j, hj, rfl⟩
        have hne : j ≠ k := Nat.ne_of_lt (List.mem_range.mp hj)
        simp [hne]
      simp [hz]
    · have hk' : k < n := lt_of_le_of_ne (Nat.lt_succ_iff.mp hk) hkn
      rw [ih hk']
      have hne : ¬ n = k := fun h => hkn h.symm
      simp [hne]

/-- C8: for every parse function, reference date, and expense list, the
two series have identical length equal to the day count of the current
month (whatever the previous month's day count), and every current-month
entry for a day strictly after today (0-based index `i ≥ today`) is
null rather than a number. -/
theorem trend_series_shape (parse : String → DateParts) (now : DateParts)
    (expenses : List Expense) :
    (prepareTrendData parse now expenses).currentMonthData.length =
      daysInMonthJS now.year now.month ∧
    (prepareTrendData parse now expenses).previousMonthData.length =
      daysInMonthJS now.year now.month ∧
    (∀ i : Nat, i < daysInMonthJS now.year now.month → now.day ≤ i →
      (prepareTrendData parse now expenses).currentMonthData[i]? = some none) := by
  refine ⟨prepareTrendData_cur_length parse now expenses,
    prepareTrendData_prev_length parse now expenses, ?_⟩
  intro i hi htoday
  unfold prepareTrendData
  dsimp only
  rw [getElem?_map_range _ i _ hi]
  rw [if_neg (not_lt.mpr htoday)]

/-- C8 witness: with reference date 2023-03-15 the series are 31 long and
the entry for day 21 (index 20, after today) is null. -/
theorem trend_series_shape_witness :
    (prepareTrendData (fun _ => ⟨2023, 2, 1⟩) ⟨2023, 2, 15⟩ []).currentMonthData.length =
      daysInMonthJS 2023 2 ∧
    (prepareTrendData (fun _ => ⟨2023, 2, 1⟩) ⟨2023, 2, 15⟩ []).currentMonthData[20]? =
      some none := by
  have h := trend_series_shape (fun _ => ⟨2023, 2, 1⟩) ⟨2023, 2, 15⟩ []
  exact ⟨h.1, h.2.2 20 (by decide) (by decide)⟩

/-- C9: at the failing input (reference date 2023-03-15; one expense of
5000 cents on 2023-02-10; February has 28 days, March 31), the
previous-month series ends in zeros: entries 28..30 are `0`, not the last
cumulative value `50` the spec's pad rule requires — the pad branch of
the source is dead because the array is pre-sized to the current month's
length and pre-filled with zeros. -/
theorem trend_padding_bug :
    (prepareTrendData (fun _ => ⟨2023, 1, 10⟩) ⟨2023, 2, 15⟩
        [⟨"t1", "feb", 5000, "2023-02-10", "a", "c", []⟩]).previousMonthData.length = 31 ∧
    (prepareTrendData (fun _ => ⟨2023, 1, 10⟩) ⟨2023, 2, 15⟩
        [⟨"t1", "feb", 5000, "2023-02-10", "a", "c", []⟩]).previousMonthData.getD 27 0 = 50 ∧
    (prepareTrendData (fun _ => ⟨2023, 1, 10⟩) ⟨2023, 2, 15⟩
        [⟨"t1", "feb", 5000, "2023-02-10", "a", "c", []⟩]).previousMonthData.getD 28 0 = 0 ∧
    (prepareTrendData (fun _ => ⟨2023, 1, 10⟩) ⟨2023, 2, 15⟩
        [⟨"t1", "feb", 5000, "2023-02-10", "a", "c", []⟩]).previousMonthData.getD 30 0 = 0 ∧
    ((50 : ℚ) ≠ 0) := by
  have hditto : daysInMonthJS (2023 : Int) 2 = 31 := by decide
  have hentry := fun (i : Nat) (hi : i < daysInMonthJS (2023 : Int) 2) =>
    prepareTrendData_prev_entry (fun _ => ⟨2023, 1, 10⟩) ⟨2023, 2, 15⟩
      [⟨"t1", "feb", 5000, "2023-02-10", "a", "c", []⟩] i 2023 1 28
      (by decide) (by decide) (by decide) hi
  have hf : ∀ j ∈ List.range 28,
      daySumQ (fun _ => (⟨2023, 1, 10⟩ : DateParts))
        (inPreviousMonth (2023 : Int) 2)
        [⟨"t1", "feb", 5000, "2023-02-10", "a", "c", []⟩] j =
      if j = 9 then (5000 : ℚ) / 100 else 0 := by
    intro j hj
    unfold daySumQ
    by_cases hj9 : j = 9
    · subst hj9
      simp [List.filter_cons, inPreviousMonth]
    · have hne : ¬((9 : Int) = (j : Int)) := by
        intro h
        apply hj9
        omega
      simp [List.filter_cons, inPreviousMonth, hne, hj9]
  refine ⟨by rw [prepareTrendData_prev_length]; exact hditto, ?_, ?_, ?_, by norm_num⟩
  · rw [hentry 27 (by decide)]
    rw [if_pos (by norm_num)]
    rw [List.take_of_length_le (by simp)]
    rw [List.map_congr_left hf]
    rw [list_sum_range_single 28 9 ((5000 : ℚ) / 100) (by norm_num)]
    norm_num
  · rw [hentry 28 (by decide)]
    norm_num
  · rw [hentry 30 (by decide)]
    norm_num

end Financely
